import Mathlib

/-!
Verification of the gsheety sheet-client library.

Text is modelled as `List Char`.  JavaScript runtime values that can occur as
gviz cell values are modelled by `JsVal`, with `undef` and `nullv` kept
distinct because the library distinguishes them (`cell !== null` keeps
`undefined` entries).  Thrown JavaScript errors are modelled by `Except`
with the `JsError` alternatives; the outbound requests a call issues are
collected in a `List (List Char)` of fetched URLs, so that statements of the
form "no network request is issued" are expressible.  `JSON.parse` applied to
the extracted payload substring, and the body the remote returns, are inputs
of the model (a parse function and a `Response` value).
-/

/-- JavaScript values appearing as gviz cell contents.  `undef` and `nullv`
are distinct, as in JavaScript. -/
inductive JsVal
| undef
| nullv
| str (s : List Char)
| num (n : Int)
| boolv (b : Bool)
deriving DecidableEq

/-- Errors the library can throw, one alternative per distinct `throw` site or
runtime error reachable in the source. -/
inductive JsError
| invalidURL
| invalidOptions
| typeError
| syntaxError
| httpError (status : Nat) (statusText : List Char)
| unsupportedFormat
| invalidData
deriving DecidableEq

/-- Decidable equality for `Except`, needed so witnesses can be checked by
`decide`. -/
def exceptDecEq {α β : Type} [DecidableEq α] [DecidableEq β] :
    (x y : Except α β) → Decidable (x = y)
| .error a, .error b =>
    if h : a = b then .isTrue (by rw [h]) else .isFalse (by simp [h])
| .error _, .ok _ => .isFalse (by simp)
| .ok _, .error _ => .isFalse (by simp)
| .ok a, .ok b =>
    if h : a = b then .isTrue (by rw [h]) else .isFalse (by simp [h])

instance {α β : Type} [DecidableEq α] [DecidableEq β] : DecidableEq (Except α β) :=
  exceptDecEq

/-- The character with code 123, written here by code point. -/
def lbraceChar : Char := Char.ofNat 123

/-- The character with code 125, written here by code point. -/
def rbraceChar : Char := Char.ofNat 125

/-- Longest prefix made of characters other than '/': the maximal text the
capture group of the regular expression in `parseURL` can take. -/
def takeNonSlash : List Char → List Char
| [] => []
| c :: cs => if c = '/' then [] else c :: takeNonSlash cs

/-- Attempts a match of the `parseURL` pattern at the head of the list: a '/',
a 'd', a '/', then at least one non-slash character.  On success returns the
capture, the maximal run of non-slash characters after the second '/'. -/
def matchDHead : List Char → Option (List Char)
| a :: b :: c :: d :: rest =>
    if a = '/' ∧ b = 'd' ∧ c = '/' ∧ d ≠ '/' then some (d :: takeNonSlash rest)
    else none
| _ => none

/-- Scans left to right for the first position where the `parseURL` pattern
matches, as the JavaScript regular expression engine does, and returns the
capture of that first match. -/
def findDSeg : List Char → Option (List Char)
| [] => none
| c :: cs =>
  match matchDHead (c :: cs) with
  | some cap => some cap
  | none => findDSeg cs

/-- The fixed prefix of every canonical spreadsheet URL the library builds. -/
def canonicalStem : List Char := ("https://docs.google.com/spreadsheets/d/").toList

namespace Gsheety

/-- Model of `Gsheety.parseURL`: match the URL against the pattern, throw the
invalid-URL error on failure, otherwise return the canonical form. -/
def parseURL (url : List Char) : Except JsError (List Char) :=
  match findDSeg url with
  | none => .error .invalidURL
  | some cap => .ok (canonicalStem ++ cap)

end Gsheety

/-- The input contains a `/d/` immediately followed by at least one non-slash
character (the exact condition under which the source regular expression
matches). -/
def HasDSeg (l : List Char) : Prop :=
  ∃ a d b, l = a ++ '/' :: 'd' :: '/' :: d :: b ∧ d ≠ '/'

/-- The condition named by the specification sentence the claim quotes: a
`/d/` segment followed by an identifier and a further '/'.  Since the
identifier is a non-empty run of non-slash characters, the further '/' exists
exactly when some '/' occurs after the first identifier character. -/
def HasSlashTerminatedDSeg (l : List Char) : Prop :=
  ∃ a d b, l = a ++ '/' :: 'd' :: '/' :: d :: b ∧ d ≠ '/' ∧ '/' ∈ b

/-- Model of the JavaScript `String.prototype.indexOf` restricted to a single
character: index of the first occurrence, or -1. -/
def jsIndexOfChar (s : List Char) (c : Char) : Int :=
  match s.findIdx? (fun x => x = c) with
  | some i => (i : Int)
  | none => -1

/-- Model of the JavaScript `String.prototype.lastIndexOf` restricted to a
single character: index of the last occurrence, or -1. -/
def jsLastIndexOfChar (s : List Char) (c : Char) : Int :=
  match s.reverse.findIdx? (fun x => x = c) with
  | some i => (s.length : Int) - 1 - (i : Int)
  | none => -1

/-- Model of the JavaScript `String.prototype.slice` with two arguments:
negative positions count from the end, positions clamp to the length, and the
result is the span from the first resolved position to the second. -/
def jsSliceList (s : List Char) (start fin : Int) : List Char :=
  let len : Int := s.length
  let a := if start < 0 then max (len + start) 0 else min start len
  let b := if fin < 0 then max (len + fin) 0 else min fin len
  (s.take b.toNat).drop a.toNat

/-- The payload extraction of `fetchJSON`: slice the body from the first
opening brace to one past the last closing brace. -/
def extractInner (text : List Char) : List Char :=
  jsSliceList text (jsIndexOfChar text lbraceChar) (jsLastIndexOfChar text rbraceChar + 1)

/-- Column metadata as it arrives in the raw gviz payload; each field may be
absent. -/
structure RawCol where
  id : Option (List Char) := none
  label : Option (List Char) := none
  type : Option (List Char) := none
deriving DecidableEq

/-- One raw cell; its `v` field may be absent (`undef`) or null. -/
structure RawCell where
  v : JsVal := .undef
deriving DecidableEq

/-- One raw row: the `c` array whose entries are cell objects or null. -/
structure RawRow where
  c : List (Option RawCell)
deriving DecidableEq

/-- The `table` object of the payload. -/
structure RawTable where
  cols : List (Option RawCol)
  rows : List RawRow
deriving DecidableEq

/-- The whole parsed payload, reduced to the one field the library reads:
`table`, possibly absent. -/
structure ParsedJSON where
  table : Option RawTable
deriving DecidableEq

/-- The value `fetchJSON` resolves with: the parsed payload or null, and a
message string. -/
structure RawFetchResult where
  data : Option ParsedJSON
  msg : List Char
deriving DecidableEq

/-- The options argument of `get` as a JavaScript value.  `prim` stands for
any primitive (string, number, boolean, symbol, bigint) and `func` for a
function value; neither has typeof "object".  Arrays destructure and read
fields exactly like an object with every option field absent, so they are
covered by `obj` with default fields. -/
inductive OptVal
| undef
| nullv
| prim
| func
| obj (sheet : Option (List Char)) (query : Option (List Char)) (raw : Bool) (clearNull : Bool)
deriving DecidableEq

/-- The `typeof options === "object"` test: true for objects, arrays and,
as in JavaScript, for null. -/
def typeofObject : OptVal → Bool
| .nullv => true
| .obj _ _ _ _ => true
| _ => false

/-- JavaScript default parameters replace an `undefined` argument by the
default, here the empty object literal. -/
def defaultOpt (v : OptVal) : OptVal :=
  match v with
  | .undef => .obj none none false false
  | w => w

/-- Truthiness of the `raw` option read off the options value. -/
def optRaw : OptVal → Bool
| .obj _ _ r _ => r
| _ => false

/-- Truthiness of the `clearNull` option read off the options value. -/
def optClearNull : OptVal → Bool
| .obj _ _ _ cl => cl
| _ => false

/-- An HTTP response as consumed by the library: status information, the text
body, and an opaque identity for the binary body. -/
structure Response where
  ok : Bool
  status : Nat
  statusText : List Char
  body : List Char
  blobId : Nat
deriving DecidableEq

/-- The default sheet name. -/
def sheetDefault : List Char := ("Sheet1").toList

/-- The default query. -/
def queryDefault : List Char := ("SELECT *").toList

/-- Destructuring `const (sheet, query) = options` with defaults: throws a
TypeError on null or undefined, reads absent fields as the defaults otherwise
(destructuring a primitive or function coerces and yields the defaults). -/
def destructureOpts : OptVal → Except JsError (List Char × List Char)
| .nullv => .error .typeError
| .undef => .error .typeError
| .prim => .ok (sheetDefault, queryDefault)
| .func => .ok (sheetDefault, queryDefault)
| .obj sheet query _ _ => .ok (sheet.getD sheetDefault, query.getD queryDefault)

/-- Characters `encodeURIComponent` leaves unescaped: ASCII letters, digits,
and - _ . ! ~ * ( ) together with the apostrophe (code 39). -/
def isUnreservedChar (c : Char) : Bool :=
  (65 ≤ c.toNat && c.toNat ≤ 90) || (97 ≤ c.toNat && c.toNat ≤ 122) ||
  (48 ≤ c.toNat && c.toNat ≤ 57) ||
  c = '-' || c = '_' || c = '.' || c = '!' || c = '~' || c = '*' ||
  c = Char.ofNat 39 || c = '(' || c = ')'

/-- Upper-case hexadecimal digit. -/
def hexDigitChar (n : Nat) : Char :=
  if n < 10 then Char.ofNat (48 + n) else Char.ofNat (55 + n)

/-- UTF-8 bytes of one character. -/
def utf8ByteList (c : Char) : List Nat :=
  let n := c.toNat
  if n < 128 then [n]
  else if n < 2048 then [192 + n / 64, 128 + n % 64]
  else if n < 65536 then [224 + n / 4096, 128 + (n / 64) % 64, 128 + n % 64]
  else [240 + n / 262144, 128 + (n / 4096) % 64, 128 + (n / 64) % 64, 128 + n % 64]

/-- Model of the JavaScript `encodeURIComponent`: unreserved characters pass
through, every other character is percent-encoded byte by byte. -/
def encodeURIComponentModel (s : List Char) : List Char :=
  s.flatMap fun c =>
    if isUnreservedChar c then [c]
    else (utf8ByteList c).flatMap fun b =>
      [Char.ofNat 37, hexDigitChar (b / 16), hexDigitChar (b % 16)]

/-- The visualization-query endpoint URL built by `fetchJSON`. -/
def gvizURL (canon sheet query : List Char) : List Char :=
  canon ++ ("/gviz/tq?sheet=").toList ++ encodeURIComponentModel sheet ++
    ("&tq=").toList ++ encodeURIComponentModel query

/-- The message for a rejected query or empty payload. -/
def invalidQueryMsg : List Char := ("Invalid query or empty response").toList

/-- The success message. -/
def okMsg : List Char := ("ok").toList

/-- The message reporting an HTTP failure inside `fetchJSON`. -/
def httpErrorMsg (status : Nat) (statusText : List Char) : List Char :=
  ("HTTP Error ").toList ++ (Nat.repr status).toList ++ (": ").toList ++ statusText

namespace Gsheety

/-- Model of `Gsheety.fetchJSON`.  The first component is the settled value
(or thrown error), the second the list of URLs fetched.  `parse` stands for
`JSON.parse`, returning none where the real function would throw a
SyntaxError. -/
def fetchJSON (parse : List Char → Option ParsedJSON) (url : List Char)
    (opt : OptVal) (resp : Response) :
    Except JsError RawFetchResult × List (List Char) :=
  match destructureOpts opt with
  | .error e => (.error e, [])
  | .ok (sheet, query) =>
    match parseURL url with
    | .error e => (.error e, [])
    | .ok canon =>
      let req := gvizURL canon sheet query
      if resp.ok then
        match parse (extractInner resp.body) with
        | none => (.error .syntaxError, [req])
        | some json =>
          match json.table with
          | none => (.ok ⟨none, invalidQueryMsg⟩, [req])
          | some _ => (.ok ⟨some json, okMsg⟩, [req])
      else (.ok ⟨none, httpErrorMsg resp.status resp.statusText⟩, [req])

end Gsheety

/-- The label default `Column <1-based index>`. -/
def defaultLabel (i : Nat) : List Char :=
  ("Column ").toList ++ (Nat.repr (i + 1)).toList

/-- The expression `col?.label OR default`: the default applies when the
column is null, the label absent, or the label the empty string (falsy). -/
def jsOrLabel (oc : Option RawCol) (i : Nat) : List Char :=
  match oc with
  | none => defaultLabel i
  | some rc =>
    match rc.label with
    | none => defaultLabel i
    | some s => if s = [] then defaultLabel i else s

/-- A normalized column object.  Every field is optional so that the three
implementations, which emit different shapes, share one result type; a field
an implementation does not set is none. -/
structure ColOut where
  label : Option (List Char) := none
  columnId : Option (List Char) := none
  type : Option (List Char) := none
deriving DecidableEq

/-- One normalized column of the main implementation. -/
def normCol (i : Nat) (oc : Option RawCol) : ColOut :=
  ⟨some (jsOrLabel oc i), oc.bind RawCol.id, oc.bind RawCol.type⟩

/-- The indexed map over `table.cols` of the main implementation. -/
def normColsAux (i : Nat) : List (Option RawCol) → List ColOut
| [] => []
| oc :: rest => normCol i oc :: normColsAux (i + 1) rest

/-- Normalized columns of the main implementation. -/
def normCols (cols : List (Option RawCol)) : List ColOut := normColsAux 0 cols

/-- The expression `row.c[i]` followed by `cell ? cell.v : null`: null when
the index is past the array or the entry is null, the cell value otherwise. -/
def cellAt (cells : List (Option RawCell)) (i : Nat) : JsVal :=
  match cells[i]? with
  | some (some cell) => cell.v
  | _ => .nullv

/-- One normalized row of the main implementation: the map over the column
indices, so the length is the column count whatever the length of `row.c`. -/
def normRow (numCols : Nat) (r : RawRow) : List JsVal :=
  (List.range numCols).map fun i => cellAt r.c i

/-- The `clearNull` filter: `cell !== null` keeps every entry except null,
`undefined` included. -/
def clearNullRow (r : List JsVal) : List JsVal := r.filter fun v => v ≠ JsVal.nullv

/-- The normalized object `get` resolves with.  `msg` is optional because one
of the shipped implementations omits it on success; cols entries are optional
because another keeps null column entries. -/
structure FetchOut where
  cols : List (Option ColOut)
  rows : List (List JsVal)
  msg : Option (List Char)
deriving DecidableEq

/-- The value `get` resolves with: the normalized shape or, under the raw
option, the untouched fetch result. -/
inductive GetOut
| normal (f : FetchOut)
| raw (r : RawFetchResult)
deriving DecidableEq

/-- The normalization block of the main `get`: normalized columns, rows padded
to the column count, and the clear-null pass when requested. -/
def normalizeTable (t : RawTable) (clear : Bool) (msg : List Char) : FetchOut :=
  let cols := normCols t.cols
  let rows0 := t.rows.map (normRow cols.length)
  ⟨cols.map some, if clear then rows0.map clearNullRow else rows0, some msg⟩

namespace Gsheety

/-- Model of the main `Gsheety.get` (the file also shipping
`generateTableFromOutput`): option validation, fetch, the data-null early
return, the raw escape hatch, then normalization with label defaulting,
row padding and the optional clear-null pass. -/
def get (parse : List Char → Option ParsedJSON) (url : List Char)
    (optArg : OptVal) (resp : Response) :
    Except JsError GetOut × List (List Char) :=
  let opt := defaultOpt optArg
  if typeofObject opt = false then (.error .invalidOptions, [])
  else
    match fetchJSON parse url opt resp with
    | (.error e, log) => (.error e, log)
    | (.ok fr, log) =>
      match fr.data with
      | none => (.ok (.normal ⟨[], [], some fr.msg⟩), log)
      | some json =>
        if optRaw opt then (.ok (.raw fr), log)
        else
          match json.table with
          | none => (.error .typeError, log)
          | some t =>
            (.ok (.normal (normalizeTable t (optClearNull opt) fr.msg)), log)

end Gsheety

/-- One column as mapped by the dist implementation: label and type copied as
they are (no defaulting, no columnId), null columns kept as null. -/
def distCol (oc : Option RawCol) : Option ColOut :=
  match oc with
  | none => none
  | some rc => some ⟨rc.label, none, rc.type⟩

/-- One row as mapped by the dist implementation: straight over `row.c`, so
the length is the length of `row.c`, not the column count. -/
def distRow (r : RawRow) : List JsVal :=
  r.c.map fun oc =>
    match oc with
    | some cell => cell.v
    | none => .nullv

namespace GsheetyDist

/-- Model of `get` from dist/gsheety.js: identical guard, fetch, data-null and
raw paths, but the success value maps columns and rows without defaulting or
padding and carries no msg field. -/
def get (parse : List Char → Option ParsedJSON) (url : List Char)
    (optArg : OptVal) (resp : Response) :
    Except JsError GetOut × List (List Char) :=
  let opt := defaultOpt optArg
  if typeofObject opt = false then (.error .invalidOptions, [])
  else
    match Gsheety.fetchJSON parse url opt resp with
    | (.error e, log) => (.error e, log)
    | (.ok fr, log) =>
      match fr.data with
      | none => (.ok (.normal ⟨[], [], some fr.msg⟩), log)
      | some json =>
        if optRaw opt then (.ok (.raw fr), log)
        else
          match json.table with
          | none => (.error .typeError, log)
          | some t =>
            (.ok (.normal ⟨t.cols.map distCol, t.rows.map distRow, none⟩), log)

end GsheetyDist

namespace GsheetySrc

/-- Model of `get` from src/gsheety.js: identical guard, fetch, data-null and
raw paths, but the success value filters null columns out and removes null
cells from every row unconditionally, and carries msg. -/
def get (parse : List Char → Option ParsedJSON) (url : List Char)
    (optArg : OptVal) (resp : Response) :
    Except JsError GetOut × List (List Char) :=
  let opt := defaultOpt optArg
  if typeofObject opt = false then (.error .invalidOptions, [])
  else
    match Gsheety.fetchJSON parse url opt resp with
    | (.error e, log) => (.error e, log)
    | (.ok fr, log) =>
      match fr.data with
      | none => (.ok (.normal ⟨[], [], some fr.msg⟩), log)
      | some json =>
        if optRaw opt then (.ok (.raw fr), log)
        else
          match json.table with
          | none => (.error .typeError, log)
          | some t =>
            (.ok (.normal ⟨(t.cols.map distCol).filter (fun c => c ≠ none),
              t.rows.map (fun r => clearNullRow (distRow r)), some fr.msg⟩), log)

end GsheetySrc

/-- The exported data: text for csv and tsv, the binary body otherwise. -/
inductive ExportOut
| text (s : List Char)
| blob (b : Nat)
deriving DecidableEq

/-- The own properties of the `formats` object literal. -/
def formatsLookup (t : List Char) : Option (List Char) :=
  if t = ("csv").toList then some (("export?format=csv").toList)
  else if t = ("tsv").toList then some (("export?format=tsv").toList)
  else if t = ("pdf").toList then some (("export?format=pdf").toList)
  else if t = ("xlsx").toList then some (("export?format=xlsx").toList)
  else none

/-- The four supported format names. -/
def supportedFormats : List (List Char) :=
  [("csv").toList, ("tsv").toList, ("pdf").toList, ("xlsx").toList]

/-- Property names the `formats` object literal inherits from
`Object.prototype`; looking any of them up yields a truthy value, so the
unsupported-format guard `if (!formats[type])` does not fire on them. -/
def objectProtoNames : List (List Char) :=
  [("constructor").toList, ("hasOwnProperty").toList, ("isPrototypeOf").toList,
   ("propertyIsEnumerable").toList, ("toLocaleString").toList, ("toString").toList,
   ("valueOf").toList, ("__defineGetter__").toList, ("__defineSetter__").toList,
   ("__lookupGetter__").toList, ("__lookupSetter__").toList, ("__proto__").toList]

/-- What an inherited `Object.prototype` member interpolates to inside the
template literal building the export URL: the prototype object itself for
`__proto__`, the usual native-function rendering otherwise. -/
def protoMemberString (t : List Char) : List Char :=
  if t = ("__proto__").toList then ("[object Object]").toList
  else ("function ").toList ++ t ++ ("() \x7b [native code] \x7d").toList

/-- Full JavaScript property lookup `formats[type]` (rendered to the string
the template literal would produce): own properties first, then the inherited
`Object.prototype` members. -/
def formatsGet (t : List Char) : Option (List Char) :=
  match formatsLookup t with
  | some p => some p
  | none =>
    if objectProtoNames.contains t then some (protoMemberString t) else none

namespace Gsheety

/-- Model of `Gsheety.getExportedData` (identical in all three shipped
files): the format guard, URL resolution, one GET, a thrown error on HTTP
failure, and blob or text content by format. -/
def getExportedData (url : List Char) (t : List Char) (resp : Response) :
    Except JsError ExportOut × List (List Char) :=
  match formatsGet t with
  | none => (.error .unsupportedFormat, [])
  | some path =>
    match parseURL url with
    | .error e => (.error e, [])
    | .ok canon =>
      let req := canon ++ '/' :: path
      if resp.ok then
        (if t = ("pdf").toList ∨ t = ("xlsx").toList then (.ok (.blob resp.blobId), [req])
         else (.ok (.text resp.body), [req]))
      else (.error (.httpError resp.status resp.statusText), [req])

end Gsheety

/-- One column object as fed to `generateTableFromOutput`; its label may be
absent. -/
structure GenCol where
  label : Option (List Char) := none
deriving DecidableEq

/-- The data argument of `generateTableFromOutput`: a falsy value, or an
object whose `cols` and `rows` fields each hold an array or (none here) a
non-array value, together with the msg string. -/
inductive GenData
| falsy
| obj (cols : Option (List GenCol)) (rows : Option (List (List JsVal))) (msg : List Char)
deriving DecidableEq

/-- Options of `generateTableFromOutput`: the optional class names and
whether each callback is a function. -/
structure GenOptions where
  classTable : Option (List Char) := none
  classThead : Option (List Char) := none
  classTbody : Option (List Char) := none
  cbThead : Bool := false
  cbTbody : Bool := false
deriving DecidableEq

/-- One invocation of a customization hook, recorded in construction order
and carrying the text content of the cell handed to it. -/
inductive HookEvent
| theadItem (text : List Char)
| tbodyItem (text : List Char)
deriving DecidableEq

/-- The constructed table: class names actually assigned, header cell texts,
and the grid of body cell texts. -/
structure HTMLTableModel where
  classTable : Option (List Char)
  classThead : Option (List Char)
  classTbody : Option (List Char)
  headerCells : List (List Char)
  bodyRows : List (List (List Char))
deriving DecidableEq

/-- Assigning `textContent`: null becomes the empty string, undefined the
string "undefined", other values their usual string conversion. -/
def textContentOfVal : JsVal → List Char
| .undef => ("undefined").toList
| .nullv => []
| .str s => s
| .num n => (toString n).toList
| .boolv b => if b then ("true").toList else ("false").toList

/-- The header cell text: the label, or "undefined" when the label is absent
(assigning undefined to `textContent` stringifies it). -/
def labelText : Option (List Char) → List Char
| none => ("undefined").toList
| some s => s

/-- Truthiness guard on a class-name option: an empty string is falsy, so it
is not assigned. -/
def truthyStr : Option (List Char) → Option (List Char)
| none => none
| some s => if s = [] then none else some s

/-- The validity condition of the claim, stated declaratively: the data
argument is missing (falsy), cols or rows is not an array, or msg differs
from "ok". -/
def GenInvalid (d : GenData) : Prop :=
  d = .falsy ∨ ∃ c r m, d = .obj c r m ∧ (c = none ∨ r = none ∨ m ≠ okMsg)

namespace Gsheety

/-- Model of `Gsheety.generateTableFromOutput`: the validity guard, then the
header row built from the column labels with the thead hook run per header
cell, then the body rows with the tbody hook run per cell in row-major
order.  The second component records the hook invocations in order. -/
def generateTableFromOutput (d : GenData) (o : GenOptions) :
    Except JsError (HTMLTableModel × List HookEvent) :=
  match d with
  | .falsy => .error .invalidData
  | .obj colsOpt rowsOpt msg =>
    match colsOpt, rowsOpt with
    | some cols, some rows =>
      if msg = okMsg then
        let headerCells := cols.map fun c => labelText c.label
        let bodyRows := rows.map fun r => r.map textContentOfVal
        let evs :=
          (if o.cbThead then headerCells.map HookEvent.theadItem else []) ++
          (if o.cbTbody then bodyRows.flatMap (fun r => r.map HookEvent.tbodyItem) else [])
        .ok (⟨truthyStr o.classTable, truthyStr o.classThead, truthyStr o.classTbody,
          headerCells, bodyRows⟩, evs)
      else .error .invalidData
    | _, _ => .error .invalidData

end Gsheety

/-- A parse function that fails everywhere it is asked; it stands for
`JSON.parse` at call sites whose argument is not valid JSON, such as the
empty string or a brace-delimited fragment of an HTML page. -/
def noParse : List Char → Option ParsedJSON := fun _ => none

/-- A sample share URL. -/
def urlA : List Char := ("https://docs.google.com/spreadsheets/d/abc/edit?usp=sharing").toList

/-- The canonical URL of `urlA`. -/
def canonA : List Char := ("https://docs.google.com/spreadsheets/d/abc").toList

/-- A sample success body: the gviz envelope around a table with a null
column, a labelled column, one empty row and one row with a cell, a null
entry and a surplus cell. -/
def bodyA : List Char :=
  ("google.visualization.Query.setResponse(\x7b\x22version\x22:\x220.6\x22,\x22table\x22:\x7b\x22cols\x22:[null,\x7b\x22id\x22:\x22B\x22,\x22label\x22:\x22Age\x22,\x22type\x22:\x22number\x22\x7d],\x22rows\x22:[\x7b\x22c\x22:[]\x7d,\x7b\x22c\x22:[\x7b\x22v\x22:\x22x\x22\x7d,null,\x7b\x22v\x22:1\x7d]\x7d]\x7d\x7d);").toList

/-- The table carried by the sample payload `bodyA`. -/
def tableA : RawTable :=
  ⟨[none, some ⟨some (("B").toList), some (("Age").toList), some (("number").toList)⟩],
    [⟨[]⟩, ⟨[some ⟨.str (("x").toList)⟩, none, some ⟨.num 1⟩]⟩]⟩

/-- The object `JSON.parse` yields on the brace-delimited substring of
`bodyA`, reduced to the fields the library reads. -/
def jsonA : ParsedJSON := ⟨some tableA⟩

/-- A parse function agreeing with `JSON.parse` on the substring extracted
from `bodyA` and failing elsewhere. -/
def parseA : List Char → Option ParsedJSON :=
  fun s => if s = extractInner bodyA then some jsonA else none

/-- A successful response carrying `bodyA`. -/
def respA : Response := ⟨true, 200, ("OK").toList, bodyA, 0⟩

/-- A failed response. -/
def respBad : Response := ⟨false, 404, ("Not Found").toList, [], 0⟩

/-- A valid table-generation input: one labelled column, one row with a text
cell and a null cell. -/
def genDataB : GenData :=
  .obj (some [⟨some (("Name").toList)⟩]) (some [[.str (("a").toList), .nullv]]) okMsg

/-- Generation options requesting both customization hooks. -/
def genOptsB : GenOptions := ⟨none, none, none, true, true⟩

/-- The table `generateTableFromOutput` builds from `genDataB`. -/
def tblB : HTMLTableModel :=
  ⟨none, none, none, [("Name").toList], [[("a").toList, []]]⟩

/-- The hook invocations recorded while building `tblB`: the header cell
first, then the body cells in row-major order. -/
def evsB : List HookEvent :=
  [.theadItem (("Name").toList), .tbodyItem (("a").toList), .tbodyItem []]

/-- A successful response whose body is an HTML page; its brace-delimited
substring is a CSS fragment, not JSON. -/
def respHtml : Response :=
  ⟨true, 200, ("OK").toList,
    ("<html><style>a\x7bcolor:red\x7d</style></html>").toList, 0⟩

/-! Helper lemmas about the URL matcher. -/

theorem slash_not_mem_takeNonSlash (l : List Char) : '/' ∉ takeNonSlash l := by
  induction l with
  | nil => simp [takeNonSlash]
  | cons c cs ih =>
    by_cases h : c = '/'
    · simp [takeNonSlash, h]
    · simp only [takeNonSlash, if_neg h, List.mem_cons, not_or]
      exact ⟨fun he => h he.symm, ih⟩

theorem takeNonSlash_decomp (l : List Char) :
    ∃ rest, l = takeNonSlash l ++ rest ∧ (rest = [] ∨ ∃ r, rest = '/' :: r) := by
  induction l with
  | nil => exact ⟨[], by simp [takeNonSlash]⟩
  | cons c cs ih =>
    by_cases h : c = '/'
    · exact ⟨'/' :: cs, by simp [takeNonSlash, h], Or.inr ⟨cs, rfl⟩⟩
    · obtain ⟨rest, he, hr⟩ := ih
      exact ⟨rest, by simpa [takeNonSlash, h] using he, hr⟩

theorem takeNonSlash_of_not_mem (l : List Char) (h : '/' ∉ l) : takeNonSlash l = l := by
  induction l with
  | nil => rfl
  | cons c cs ih =>
    simp only [List.mem_cons, not_or] at h
    have hc : ¬ c = '/' := fun he => h.1 he.symm
    simp [takeNonSlash, hc, ih h.2]

theorem matchDHead_eq_some_iff (l cap : List Char) :
    matchDHead l = some cap ↔
      ∃ d b, l = '/' :: 'd' :: '/' :: d :: b ∧ d ≠ '/' ∧ cap = d :: takeNonSlash b := by
  rcases l with _ | ⟨a, _ | ⟨b, _ | ⟨c, _ | ⟨d, rest⟩⟩⟩⟩ <;>
    simp only [matchDHead] <;> try simp
  constructor
  · rintro ⟨⟨h1, h2, h3, h4⟩, h5⟩
    exact ⟨d, rest, ⟨h1, h2, h3, rfl, rfl⟩, h4, h5.symm⟩
  · rintro ⟨d1, b1, ⟨h1, h2, h3, h4, h5⟩, h6, h7⟩
    subst h4; subst h5
    exact ⟨⟨h1, h2, h3, h6⟩, h7.symm⟩

theorem matchDHead_eq_none_iff (l : List Char) :
    matchDHead l = none ↔ ¬ ∃ d b, l = '/' :: 'd' :: '/' :: d :: b ∧ d ≠ '/' := by
  rcases l with _ | ⟨a, _ | ⟨b, _ | ⟨c, _ | ⟨d, rest⟩⟩⟩⟩ <;>
    simp only [matchDHead] <;> try simp
  constructor
  · intro h hx h1 h2 h3 h4
    exact h4 ▸ h h1 h2 h3
  · intro h h1 h2 h3
    exact h d h1 h2 h3 rfl

theorem hasDSeg_cons_iff (x : Char) (xs : List Char) :
    HasDSeg (x :: xs) ↔
      (∃ d b, x :: xs = '/' :: 'd' :: '/' :: d :: b ∧ d ≠ '/') ∨ HasDSeg xs := by
  constructor
  · rintro ⟨a, d, b, heq, hne⟩
    rcases a with _ | ⟨y, a'⟩
    · exact Or.inl ⟨d, b, heq, hne⟩
    · right
      rw [List.cons_append] at heq
      exact ⟨a', d, b, (List.cons.injEq _ _ _ _ ▸ heq).2, hne⟩
  · rintro (⟨d, b, heq, hne⟩ | ⟨a, d, b, heq, hne⟩)
    · exact ⟨[], d, b, heq, hne⟩
    · exact ⟨x :: a, d, b, by rw [List.cons_append, heq], hne⟩

theorem findDSeg_eq_none_iff (l : List Char) : findDSeg l = none ↔ ¬ HasDSeg l := by
  induction l with
  | nil =>
    simp only [findDSeg, HasDSeg]
    constructor
    · rintro _ ⟨a, d, b, heq, _⟩
      exact absurd heq (by simp)
    · intro _; trivial
  | cons x xs ih =>
    rw [hasDSeg_cons_iff]
    constructor
    · intro h
      rw [findDSeg] at h
      rcases hm : matchDHead (x :: xs) with _ | cap
      · rw [hm] at h
        rintro (hx | hx)
        · exact (matchDHead_eq_none_iff _ |>.mp hm) hx
        · exact (ih.mp h) hx
      · rw [hm] at h; cases h
    · intro h
      rw [findDSeg]
      rcases hm : matchDHead (x :: xs) with _ | cap
      · exact ih.mpr fun hx => h (Or.inr hx)
      · obtain ⟨d, b, heq, hne, _⟩ := matchDHead_eq_some_iff _ _ |>.mp hm
        exact absurd (Or.inl ⟨d, b, heq, hne⟩) h

theorem findDSeg_some_spec (l cap : List Char) (h : findDSeg l = some cap) :
    ∃ a d b, l = a ++ '/' :: 'd' :: '/' :: d :: b ∧ d ≠ '/' ∧
      cap = d :: takeNonSlash b ∧
      ∀ a2 d2 b2, l = a2 ++ '/' :: 'd' :: '/' :: d2 :: b2 → d2 ≠ '/' →
        a.length ≤ a2.length := by
  induction l with
  | nil => cases h
  | cons x xs ih =>
    rw [findDSeg] at h
    rcases hm : matchDHead (x :: xs) with _ | cap'
    · rw [hm] at h
      obtain ⟨a, d, b, heq, hne, hcap, hfirst⟩ := ih h
      refine ⟨x :: a, d, b, by rw [List.cons_append, heq], hne, hcap, ?_⟩
      intro a2 d2 b2 heq2 hne2
      rcases a2 with _ | ⟨y, a2'⟩
      · exact absurd ⟨d2, b2, heq2, hne2⟩ (matchDHead_eq_none_iff _ |>.mp hm)
      · rw [List.cons_append] at heq2
        have := hfirst a2' d2 b2 (List.cons.injEq _ _ _ _ ▸ heq2).2 hne2
        simpa using Nat.succ_le_succ this
    · rw [hm] at h
      obtain ⟨d, b, heq, hne, hcap⟩ := matchDHead_eq_some_iff _ _ |>.mp hm
      exact ⟨[], d, b, heq, hne, (Option.some.injEq _ _ ▸ h) ▸ hcap,
        fun a2 d2 b2 _ _ => Nat.zero_le _⟩

theorem canonicalStem_chars :
    canonicalStem = ['h', 't', 't', 'p', 's', ':', '/', '/', 'd', 'o', 'c', 's', '.', 'g', 'o', 'o', 'g', 'l', 'e', '.', 'c', 'o', 'm', '/', 's', 'p', 'r', 'e', 'a', 'd', 's', 'h', 'e', 'e', 't', 's', '/', 'd', '/'] := by decide

theorem findDSeg_canonical (d : Char) (cs : List Char) (hd : d ≠ '/') (hcs : '/' ∉ cs) :
    findDSeg (canonicalStem ++ d :: cs) = some (d :: cs) := by
  rw [canonicalStem_chars]
  simp only [List.cons_append, List.nil_append]
  simp [findDSeg, matchDHead, hd, takeNonSlash_of_not_mem cs hcs]

/-- Claim C9 (confirmed): `parseURL` is idempotent on every input on which it
succeeds: applied to its own output it returns that output unchanged.  This
holds without the guard the claim attaches (the guard is vacuous: the
canonical output never carries a '/' after the identifier). -/
theorem claim_c9_idempotent (url out : List Char)
    (h : Gsheety.parseURL url = .ok out) : Gsheety.parseURL out = .ok out := by
  rw [Gsheety.parseURL] at h
  rcases hf : findDSeg url with _ | cap
  · rw [hf] at h; cases h
  · rw [hf] at h
    have hout : out = canonicalStem ++ cap := (Except.ok.injEq _ _ ▸ h).symm
    obtain ⟨a, d, b, _, hne, hcap, _⟩ := findDSeg_some_spec url cap hf
    have hmem : '/' ∉ takeNonSlash b := slash_not_mem_takeNonSlash b
    have : findDSeg out = some cap := by
      rw [hout, hcap]
      exact findDSeg_canonical d (takeNonSlash b) hne hmem
    rw [Gsheety.parseURL, this, hout]

/-- Witness for C9 at a concrete share URL. -/
theorem claim_c9_witness : Gsheety.parseURL canonA = .ok canonA :=
  claim_c9_idempotent urlA canonA (by decide)

/-- Counterexample to claim C5 as stated: the input consisting only of
`/d/abc` contains no `/d/<id>/` segment (no further '/' after the
identifier), yet `parseURL` does not fail: it succeeds and returns the
canonical URL, because the source pattern requires no terminating slash. -/
theorem claim_c5_counterexample :
    ¬ HasSlashTerminatedDSeg (("/d/abc").toList) ∧
    Gsheety.parseURL (("/d/abc").toList) =
      .ok (("https://docs.google.com/spreadsheets/d/abc").toList) := by
  constructor
  · rintro ⟨a, d, b, heq, hne, hmem⟩
    have h6 : ("/d/abc").toList = ['/', 'd', '/', 'a', 'b', 'c'] := by decide
    rw [h6] at heq
    rcases a with _ | ⟨x1, _ | ⟨x2, _ | ⟨x3, a'⟩⟩⟩
    · simp only [List.nil_append, List.cons.injEq] at heq
      obtain ⟨-, -, -, hd, hb⟩ := heq
      subst hd; subst hb
      simp at hmem
    · simp at heq
    · simp at heq
    · have hlen := congrArg List.length heq
      simp [List.length_append] at hlen
      omega
  · decide

/-- Claim C5 as amended: `parseURL` fails with the invalid-URL error exactly
when the input contains no `/d/` followed by at least one non-slash character
(a terminating '/' is not required); on success the returned URL is the
canonical stem followed by the capture of the first such match, the maximal
run of non-slash characters, which extends to the next '/' or to the end of
the input. -/
theorem claim_c5_amended (url : List Char) :
    (Gsheety.parseURL url = .error .invalidURL ↔ ¬ HasDSeg url) ∧
    (∀ out, Gsheety.parseURL url = .ok out →
      ∃ a d idt rest, url = a ++ '/' :: 'd' :: '/' :: d :: (idt ++ rest) ∧
        d ≠ '/' ∧ '/' ∉ idt ∧ (rest = [] ∨ ∃ r, rest = '/' :: r) ∧
        out = canonicalStem ++ d :: idt ∧
        (∀ a2 d2 b2, url = a2 ++ '/' :: 'd' :: '/' :: d2 :: b2 → d2 ≠ '/' →
          a.length ≤ a2.length)) := by
  constructor
  · rcases hf : findDSeg url with _ | cap
    · rw [Gsheety.parseURL, hf]
      simp only [true_iff]
      exact findDSeg_eq_none_iff url |>.mp hf
    · rw [Gsheety.parseURL, hf]
      obtain ⟨a, d, b, heq, hne, -, -⟩ := findDSeg_some_spec url cap hf
      simp only [iff_iff_implies_and_implies]
      constructor
      · intro h; cases h
      · intro h
        exact absurd ⟨a, d, b, heq, hne⟩ h
  · intro out hout
    rw [Gsheety.parseURL] at hout
    rcases hf : findDSeg url with _ | cap
    · rw [hf] at hout; cases hout
    · rw [hf] at hout
      obtain ⟨a, d, b, heq, hne, hcap, hfirst⟩ := findDSeg_some_spec url cap hf
      obtain ⟨rest, hb, hr⟩ := takeNonSlash_decomp b
      refine ⟨a, d, takeNonSlash b, rest, ?_, hne, slash_not_mem_takeNonSlash b, hr, ?_, hfirst⟩
      · rw [heq, ← hb]
      · have h2 : (Except.ok (canonicalStem ++ cap) : Except JsError (List Char)) = .ok out := hout
        have h3 : out = canonicalStem ++ cap := ((Except.ok.injEq _ _).mp h2).symm
        rw [hcap] at h3
        exact h3

/-- Witness for the amended C5 at a concrete share URL with a terminated
identifier segment. -/
theorem claim_c5_amended_witness :
    ∃ a d idt rest, urlA = a ++ '/' :: 'd' :: '/' :: d :: (idt ++ rest) ∧
      d ≠ '/' ∧ '/' ∉ idt ∧ (rest = [] ∨ ∃ r, rest = '/' :: r) ∧
      canonA = canonicalStem ++ d :: idt ∧
      (∀ a2 d2 b2, urlA = a2 ++ '/' :: 'd' :: '/' :: d2 :: b2 → d2 ≠ '/' →
        a.length ≤ a2.length) :=
  (claim_c5_amended urlA).2 canonA (by decide)

/-! Helper lemmas about the payload extraction. -/

theorem findIdx?_of_mem {α : Type} (p : α → Bool) (l : List α) (x : α)
    (hx : x ∈ l) (hp : p x = true) : ∃ i, l.findIdx? p = some i := by
  rcases h : l.findIdx? p with _ | i
  · rw [List.findIdx?_eq_none_iff] at h
    rw [h x hx] at hp
    cases hp
  · exact ⟨i, rfl⟩

theorem extractInner_decomp (text : List Char)
    (hb : lbraceChar ∈ text) (he : rbraceChar ∈ text)
    (hord : jsIndexOfChar text lbraceChar ≤ jsLastIndexOfChar text rbraceChar) :
    ∃ pre inner post, text = pre ++ inner ++ post ∧ lbraceChar ∉ pre ∧
      rbraceChar ∉ post ∧ inner.head? = some lbraceChar ∧
      inner.getLast? = some rbraceChar ∧ extractInner text = inner := by
  obtain ⟨i, hi⟩ := findIdx?_of_mem (fun x => x = lbraceChar) text lbraceChar hb (by simp)
  have hbr : rbraceChar ∈ text.reverse := by simpa using he
  obtain ⟨ir, hir⟩ :=
    findIdx?_of_mem (fun x => x = rbraceChar) text.reverse rbraceChar hbr (by simp)
  obtain ⟨hilt, hig, hiprev⟩ := List.findIdx?_eq_some_iff_getElem.mp hi
  obtain ⟨hirlt, hirg, hirprev⟩ := List.findIdx?_eq_some_iff_getElem.mp hir
  rw [List.length_reverse] at hirlt
  set j := text.length - 1 - ir with hj
  have hjlt : j < text.length := by omega
  have hjg : text[j] = rbraceChar := by
    rw [List.getElem_reverse] at hirg
    · simpa using hirg
  have hige : text[i] = lbraceChar := by simpa using hig
  have hij : i ≤ j := by
    have h1 : jsIndexOfChar text lbraceChar = (i : Int) := by
      rw [jsIndexOfChar, hi]
    have h2 : jsLastIndexOfChar text rbraceChar = (text.length : Int) - 1 - (ir : Int) := by
      rw [jsLastIndexOfChar, hir]
    rw [h1, h2] at hord
    omega
  have hafter : ∀ k (hk : k < text.length), j < k → text[k] ≠ rbraceChar := by
    intro k hk hjk hck
    have hrevk : text.length - 1 - k < ir := by omega
    have hrl : text.length - 1 - k < text.reverse.length := by
      rw [List.length_reverse]; omega
    have := hirprev (text.length - 1 - k) hrevk
    rw [List.getElem_reverse] at this
    simp only [decide_eq_true_eq] at this
    have hkk : text.length - 1 - (text.length - 1 - k) = k := by omega
    simp only [hkk] at this
    exact this hck
  have hextract : extractInner text = (text.take (j + 1)).drop i := by
    have h1 : jsIndexOfChar text lbraceChar = (i : Int) := by
      rw [jsIndexOfChar, hi]
    have h2 : jsLastIndexOfChar text rbraceChar = (text.length : Int) - 1 - (ir : Int) := by
      rw [jsLastIndexOfChar, hir]
    rw [extractInner, h1, h2, jsSliceList]
    have h1 : ¬ ((i : Int) < 0) := by omega
    have h2 : ¬ ((text.length : Int) - 1 - (ir : Int) + 1 < 0) := by omega
    simp only [h1, h2, if_false]
    have h3 : min (i : Int) (text.length : Int) = (i : Int) := by omega
    have h4 : min ((text.length : Int) - 1 - (ir : Int) + 1) (text.length : Int) =
        ((j : Int) + 1) := by omega
    rw [h3, h4]
    norm_num
  refine ⟨text.take i, (text.take (j + 1)).drop i, text.drop (j + 1), ?_, ?_, ?_, ?_, ?_, hextract⟩
  · have hta : (text.take (j + 1)).drop i = (text.drop i).take (j + 1 - i) :=
      List.drop_take (j + 1) i text
    have htb : text.drop (j + 1) = (text.drop i).drop (j + 1 - i) := by
      rw [List.drop_drop]
      congr 1
      omega
    rw [hta, htb, List.append_assoc, List.take_append_drop, List.take_append_drop]
  · intro hy
    obtain ⟨k, hk, hky⟩ := List.mem_iff_getElem.mp hy
    have hki : k < i := by
      have := List.length_take i text
      omega
    have := hiprev k hki
    rw [List.getElem_take] at hky
    simp only [decide_eq_true_eq] at this
    exact this hky
  · intro hy
    obtain ⟨k, hk, hky⟩ := List.mem_iff_getElem.mp hy
    rw [List.getElem_drop] at hky
    have hkl : j + 1 + k < text.length := by
      have := List.length_drop (j + 1) text
      omega
    exact hafter (j + 1 + k) hkl (by omega) hky
  · have hlen : 0 < ((text.take (j + 1)).drop i).length := by
      rw [List.length_drop, List.length_take]
      omega
    rw [List.head?_eq_getElem?, List.getElem?_eq_some_iff]
    refine ⟨hlen, ?_⟩
    rw [List.getElem_drop, List.getElem_take]
    simpa using hige
  · have hts : text.take (j + 1) = text.take j ++ [rbraceChar] := by
      rw [List.take_succ]
      congr 1
      rw [List.getElem?_eq_some_iff.mpr ⟨hjlt, hjg⟩]
      rfl
    rw [hts, List.drop_append_of_le_length, List.getLast?_concat]
    rw [List.length_take]
    omega

/-- Claim C2 (confirmed): for every HTTP-success response whose body contains
an opening and a closing brace in order, `fetchJSON` takes exactly the
substring of the body from the first opening brace to the last closing brace
inclusive, parses it, and returns the no-data invalid-query result when the
parsed object lacks a table field and the parsed object with message ok
otherwise. -/
theorem claim_c2_extraction (parse : List Char → Option ParsedJSON)
    (url canon : List Char) (ov : OptVal) (sq : List Char × List Char) (resp : Response)
    (hdst : destructureOpts ov = .ok sq)
    (hurl : Gsheety.parseURL url = .ok canon)
    (hok : resp.ok = true)
    (hb : lbraceChar ∈ resp.body) (he : rbraceChar ∈ resp.body)
    (hord : jsIndexOfChar resp.body lbraceChar ≤ jsLastIndexOfChar resp.body rbraceChar) :
    (∃ pre inner post, resp.body = pre ++ inner ++ post ∧ lbraceChar ∉ pre ∧
      rbraceChar ∉ post ∧ inner.head? = some lbraceChar ∧
      inner.getLast? = some rbraceChar ∧ extractInner resp.body = inner) ∧
    (∀ json, parse (extractInner resp.body) = some json →
      (json.table = none →
        Gsheety.fetchJSON parse url ov resp =
          (.ok ⟨none, invalidQueryMsg⟩, [gvizURL canon sq.1 sq.2])) ∧
      (∀ t, json.table = some t →
        Gsheety.fetchJSON parse url ov resp =
          (.ok ⟨some json, okMsg⟩, [gvizURL canon sq.1 sq.2]))) := by
  refine ⟨extractInner_decomp resp.body hb he hord, ?_⟩
  intro json hjson
  constructor
  · intro hnone
    rw [Gsheety.fetchJSON, hdst, hurl]
    simp [hok, hjson, hnone]
  · intro t htab
    rw [Gsheety.fetchJSON, hdst, hurl]
    simp [hok, hjson, htab]

set_option maxRecDepth 16384 in
/-- Witness for C2 on a concrete envelope body. -/
theorem claim_c2_witness :
    Gsheety.fetchJSON parseA urlA (.obj none none false false) respA =
      (.ok ⟨some jsonA, okMsg⟩, [gvizURL canonA sheetDefault queryDefault]) := by
  have h := claim_c2_extraction parseA urlA canonA (.obj none none false false)
      (sheetDefault, queryDefault) respA (by rfl) (by decide) (by rfl)
      (by decide) (by decide) (by decide)
  exact (h.2 jsonA (by decide)).2 _ rfl

/-! Helper lemmas about normalization. -/

theorem normColsAux_length (k : Nat) (l : List (Option RawCol)) :
    (normColsAux k l).length = l.length := by
  induction l generalizing k with
  | nil => rfl
  | cons oc rest ih => simp [normColsAux, ih]

theorem normColsAux_getElem? (k i : Nat) (l : List (Option RawCol)) :
    (normColsAux k l)[i]? = (l[i]?).map (normCol (k + i)) := by
  induction l generalizing k i with
  | nil => simp [normColsAux]
  | cons oc rest ih =>
    rcases i with _ | i
    · simp [normColsAux]
    · simp only [normColsAux, List.getElem?_cons_succ, ih (k + 1) i]
      have he : k + 1 + i = k + (i + 1) := by omega
      rw [he]

theorem normCols_length (l : List (Option RawCol)) : (normCols l).length = l.length :=
  normColsAux_length 0 l

theorem normCols_getElem? (i : Nat) (l : List (Option RawCol)) :
    (normCols l)[i]? = (l[i]?).map (normCol i) := by
  rw [normCols, normColsAux_getElem?, Nat.zero_add]

theorem normRow_length (n : Nat) (r : RawRow) : (normRow n r).length = n := by
  rw [normRow, List.length_map, List.length_range]

theorem normRow_getElem? (n i : Nat) (r : RawRow) (h : i < n) :
    (normRow n r)[i]? = some (cellAt r.c i) := by
  rw [normRow, List.getElem?_map, List.getElem?_range h]
  rfl

/-- Evaluation of the main `get` on the success path, shared by the claims
about normalization. -/
theorem get_success_eq (parse : List Char → Option ParsedJSON)
    (url canon : List Char) (sheet query : Option (List Char)) (cl : Bool)
    (resp : Response) (json : ParsedJSON) (t : RawTable)
    (hurl : Gsheety.parseURL url = .ok canon)
    (hok : resp.ok = true)
    (hparse : parse (extractInner resp.body) = some json)
    (htable : json.table = some t) :
    Gsheety.get parse url (.obj sheet query false cl) resp =
      (.ok (.normal (normalizeTable t cl okMsg)),
        [gvizURL canon (sheet.getD sheetDefault) (query.getD queryDefault)]) := by
  have hf : Gsheety.fetchJSON parse url (.obj sheet query false cl) resp =
      (.ok ⟨some json, okMsg⟩,
        [gvizURL canon (sheet.getD sheetDefault) (query.getD queryDefault)]) := by
    rw [Gsheety.fetchJSON]
    simp only [destructureOpts]
    rw [hurl]
    simp [hok, hparse, htable]
  rw [Gsheety.get]
  simp only [defaultOpt, typeofObject]
  rw [hf]
  simp [optRaw, optClearNull, htable]

/-- Claim C1 (confirmed): on every successful non-raw call, `get` builds one
normalized column per raw column, defaulting the label to "Column <1-based
index>" when the column or its label is absent and carrying columnId and type
through when the column is present, and builds every output row by mapping
each column index to that cell's value, or null when the cell is absent, so
every output row's length equals the column count before any clear-null step,
also when the raw row array is sparse or shorter than the column list. -/
theorem claim_c1_normalization (parse : List Char → Option ParsedJSON)
    (url canon : List Char) (sheet query : Option (List Char))
    (resp : Response) (json : ParsedJSON) (t : RawTable)
    (hurl : Gsheety.parseURL url = .ok canon)
    (hok : resp.ok = true)
    (hparse : parse (extractInner resp.body) = some json)
    (htable : json.table = some t) :
    ∃ (cols : List ColOut) (rows : List (List JsVal)),
      Gsheety.get parse url (.obj sheet query false false) resp =
        (.ok (.normal ⟨cols.map some, rows, some okMsg⟩),
          [gvizURL canon (sheet.getD sheetDefault) (query.getD queryDefault)]) ∧
      cols.length = t.cols.length ∧
      (∀ (i : Nat) (oc : Option RawCol), t.cols[i]? = some oc →
        ∃ (nc : ColOut), cols[i]? = some nc ∧
          ((oc = none ∨ ∃ rc, oc = some rc ∧ rc.label = none) →
            nc.label = some (defaultLabel i)) ∧
          (∀ rc, oc = some rc → nc.columnId = rc.id ∧ nc.type = rc.type)) ∧
      rows.length = t.rows.length ∧
      (∀ r, r ∈ rows → r.length = cols.length) ∧
      (∀ (j : Nat) (rr : RawRow), t.rows[j]? = some rr →
        ∃ (r : List JsVal), rows[j]? = some r ∧
          (∀ (i : Nat), i < cols.length →
            ((rr.c[i]? = none ∨ rr.c[i]? = some none) → r[i]? = some JsVal.nullv) ∧
            (∀ (cell : RawCell), rr.c[i]? = some (some cell) → r[i]? = some cell.v))) := by
  refine ⟨normCols t.cols, t.rows.map (normRow (normCols t.cols).length),
    ?_, normCols_length t.cols, ?_, by rw [List.length_map], ?_, ?_⟩
  · rw [get_success_eq parse url canon sheet query false resp json t hurl hok hparse htable]
    rw [normalizeTable]
    simp
  · intro i oc hoc
    refine ⟨normCol i oc, by rw [normCols_getElem?, hoc]; rfl, ?_, ?_⟩
    · rintro (hnone | ⟨rc, hrc, hlab⟩)
      · subst hnone; rfl
      · subst hrc
        simp [normCol, jsOrLabel, hlab]
    · intro rc hrc
      subst hrc
      simp [normCol]
  · intro r hr
    obtain ⟨rr, -, hrr⟩ := List.mem_map.mp hr
    rw [← hrr, normRow_length]
  · intro j rr hrr
    refine ⟨normRow (normCols t.cols).length rr, by rw [List.getElem?_map, hrr]; rfl, ?_⟩
    intro i hi
    constructor
    · intro habs
      rw [normRow_getElem? _ _ _ hi]
      rcases habs with h | h <;> simp [cellAt, h]
    · intro cell hcell
      rw [normRow_getElem? _ _ _ hi]
      simp [cellAt, hcell]

set_option maxRecDepth 16384 in
/-- Witness for C1 on a concrete payload with a null column, a sparse row and
a row longer than the column list. -/
theorem claim_c1_witness :
    ∃ (cols : List ColOut) (rows : List (List JsVal)),
      Gsheety.get parseA urlA (.obj none none false false) respA =
        (.ok (.normal ⟨cols.map some, rows, some okMsg⟩),
          [gvizURL canonA sheetDefault queryDefault]) ∧
      cols.length = 2 ∧ rows.length = 2 ∧ (∀ r ∈ rows, r.length = 2) := by
  obtain ⟨cols, rows, heq, h1, -, h2, h3, -⟩ :=
    claim_c1_normalization parseA urlA canonA none none respA jsonA _
      (by decide) rfl (by decide) rfl
  refine ⟨cols, rows, heq, h1.trans (by decide), h2.trans (by decide), ?_⟩
  intro r hr
  rw [h3 r hr]
  exact h1.trans (by decide)

/-- Claim C4 (confirmed): with the clear-null option set, every output row is
the corresponding normalized row with its null entries removed, the remaining
cells kept in order and multiplicity, and a row that contained at least one
null cell comes out strictly shorter than the column count. -/
theorem claim_c4_clearNull (parse : List Char → Option ParsedJSON)
    (url canon : List Char) (sheet query : Option (List Char))
    (resp : Response) (json : ParsedJSON) (t : RawTable)
    (hurl : Gsheety.parseURL url = .ok canon)
    (hok : resp.ok = true)
    (hparse : parse (extractInner resp.body) = some json)
    (htable : json.table = some t) :
    ∃ (cols : List ColOut) (rows : List (List JsVal)),
      Gsheety.get parse url (.obj sheet query false true) resp =
        (.ok (.normal ⟨cols.map some, rows, some okMsg⟩),
          [gvizURL canon (sheet.getD sheetDefault) (query.getD queryDefault)]) ∧
      (∀ (j : Nat) (rr : RawRow), t.rows[j]? = some rr →
        ∃ (r : List JsVal), rows[j]? = some r ∧
          r.Sublist (normRow cols.length rr) ∧
          JsVal.nullv ∉ r ∧
          (∀ v : JsVal, v ≠ JsVal.nullv →
            r.count v = (normRow cols.length rr).count v) ∧
          (JsVal.nullv ∈ normRow cols.length rr → r.length < cols.length)) := by
  refine ⟨normCols t.cols,
    (t.rows.map (normRow (normCols t.cols).length)).map clearNullRow, ?_, ?_⟩
  · rw [get_success_eq parse url canon sheet query true resp json t hurl hok hparse htable]
    rw [normalizeTable]
    simp
  · intro j rr hrr
    refine ⟨clearNullRow (normRow (normCols t.cols).length rr), ?_, ?_, ?_, ?_, ?_⟩
    · rw [List.getElem?_map, List.getElem?_map, hrr]
      rfl
    · exact List.filter_sublist _
    · intro hmem
      rw [clearNullRow, List.mem_filter] at hmem
      simp at hmem
    · intro v hv
      exact List.count_filter (by simpa using hv)
    · intro hmem
      have hlt : (clearNullRow (normRow (normCols t.cols).length rr)).length <
          (normRow (normCols t.cols).length rr).length := by
        rw [clearNullRow]
        rw [List.length_filter_lt_length_iff_exists]
        exact ⟨JsVal.nullv, hmem, by simp⟩
      rw [normRow_length] at hlt
      exact hlt

set_option maxRecDepth 16384 in
/-- Witness for C4 on a concrete payload whose first row is empty, so both
its normalized cells are null and are cleared. -/
theorem claim_c4_witness :
    ∃ (cols : List ColOut) (rows : List (List JsVal)),
      Gsheety.get parseA urlA (.obj none none false true) respA =
        (.ok (.normal ⟨cols.map some, rows, some okMsg⟩),
          [gvizURL canonA sheetDefault queryDefault]) ∧
      (∀ (j : Nat) (rr : RawRow), tableA.rows[j]? = some rr →
        ∃ (r : List JsVal), rows[j]? = some r ∧
          r.Sublist (normRow cols.length rr) ∧
          JsVal.nullv ∉ r ∧
          (∀ v : JsVal, v ≠ JsVal.nullv →
            r.count v = (normRow cols.length rr).count v) ∧
          (JsVal.nullv ∈ normRow cols.length rr → r.length < cols.length)) :=
  claim_c4_clearNull parseA urlA canonA none none respA jsonA tableA
    (by decide) rfl (by decide) rfl

/-- Claim C3 as amended: for every URL with a valid identifier segment and
every object options, and for any response whose body — when the HTTP status
is a success — carries a brace-delimited substring that parses as JSON, `get`
never throws; whenever the underlying fetch yields null data it returns the
empty-but-valid shape with the diagnostic message, so callers can branch on
the message alone.  (As stated the claim also covered bodies whose extracted
substring is not valid JSON; on those `JSON.parse` throws and `get` rejects,
see the counterexample.) -/
theorem claim_c3_amended (parse : List Char → Option ParsedJSON)
    (url canon : List Char) (sheet query : Option (List Char))
    (rawOpt clearNull : Bool) (resp : Response)
    (hurl : Gsheety.parseURL url = .ok canon)
    (hbody : resp.ok = true → (parse (extractInner resp.body)).isSome = true) :
    (∃ out log, Gsheety.get parse url (.obj sheet query rawOpt clearNull) resp =
      (.ok out, log)) ∧
    (∀ fr log,
      Gsheety.fetchJSON parse url (.obj sheet query rawOpt clearNull) resp = (.ok fr, log) →
      fr.data = none →
      Gsheety.get parse url (.obj sheet query rawOpt clearNull) resp =
        (.ok (.normal ⟨[], [], some fr.msg⟩), log)) := by
  have hget : ∀ fr log,
      Gsheety.fetchJSON parse url (.obj sheet query rawOpt clearNull) resp = (.ok fr, log) →
      fr.data = none →
      Gsheety.get parse url (.obj sheet query rawOpt clearNull) resp =
        (.ok (.normal ⟨[], [], some fr.msg⟩), log) := by
    intro fr log hf hd
    rw [Gsheety.get]
    simp only [defaultOpt, typeofObject]
    rw [hf]
    simp [hd]
  refine ⟨?_, hget⟩
  cases hok2 : resp.ok with
  | false =>
    have hf : Gsheety.fetchJSON parse url (.obj sheet query rawOpt clearNull) resp =
        (.ok ⟨none, httpErrorMsg resp.status resp.statusText⟩,
          [gvizURL canon (sheet.getD sheetDefault) (query.getD queryDefault)]) := by
      rw [Gsheety.fetchJSON]
      simp only [destructureOpts]
      rw [hurl]
      simp [hok2]
    exact ⟨_, _, hget _ _ hf rfl⟩
  | true =>
    obtain ⟨json, hj⟩ := Option.isSome_iff_exists.mp (hbody hok2)
    rcases htab : json.table with _ | t
    · have hf : Gsheety.fetchJSON parse url (.obj sheet query rawOpt clearNull) resp =
          (.ok ⟨none, invalidQueryMsg⟩,
            [gvizURL canon (sheet.getD sheetDefault) (query.getD queryDefault)]) := by
        rw [Gsheety.fetchJSON]
        simp only [destructureOpts]
        rw [hurl]
        simp [hok2, hj, htab]
      exact ⟨_, _, hget _ _ hf rfl⟩
    · have hf : Gsheety.fetchJSON parse url (.obj sheet query rawOpt clearNull) resp =
          (.ok ⟨some json, okMsg⟩,
            [gvizURL canon (sheet.getD sheetDefault) (query.getD queryDefault)]) := by
        rw [Gsheety.fetchJSON]
        simp only [destructureOpts]
        rw [hurl]
        simp [hok2, hj, htab]
      rw [Gsheety.get]
      simp only [defaultOpt, typeofObject]
      rw [hf]
      rcases rawOpt with _ | _
      · simp [optRaw, htab]
      · simp [optRaw]

set_option maxRecDepth 16384 in
/-- Counterexample to claim C3 as stated: a success response whose body is an
HTML page is a response the remote may return, the underlying fetch then
neither succeeds nor yields null data — `JSON.parse` throws on the extracted
substring (here the CSS fragment between the braces) — and `get` rejects with
that error instead of returning an empty-but-valid shape. -/
theorem claim_c3_counterexample :
    extractInner respHtml.body = ("\x7bcolor:red\x7d").toList ∧
    (Gsheety.get noParse urlA (.obj none none false false) respHtml).1 =
      .error .syntaxError := by
  constructor
  · decide
  · decide

set_option maxRecDepth 16384 in
/-- Witness for the amended C3: an HTTP failure surfaces as data, not as an
error. -/
theorem claim_c3_witness :
    Gsheety.get parseA urlA (.obj none none false false) respBad =
      (.ok (.normal ⟨[], [], some (httpErrorMsg 404 (("Not Found").toList))⟩),
        [gvizURL canonA sheetDefault queryDefault]) := by
  have h := claim_c3_amended parseA urlA canonA none none false false respBad
    (by decide) (fun hh => absurd hh (by decide))
  exact h.2 ⟨none, httpErrorMsg 404 (("Not Found").toList)⟩
    [gvizURL canonA sheetDefault queryDefault] (by decide) rfl

/-- Claim C8 as amended: for every options value whose typeof is not
"object" — any primitive or function value — `get` throws the
invalid-options error immediately, before any network request; a null
options value, whose typeof is "object", instead passes the guard and fails
with a TypeError when destructured, also before any network request. -/
theorem claim_c8_amended (parse : List Char → Option ParsedJSON)
    (url : List Char) (resp : Response) :
    Gsheety.get parse url .prim resp = (.error .invalidOptions, []) ∧
    Gsheety.get parse url .func resp = (.error .invalidOptions, []) ∧
    Gsheety.get parse url .nullv resp = (.error .typeError, []) := by
  refine ⟨?_, ?_, ?_⟩ <;> rw [Gsheety.get] <;>
    simp [defaultOpt, typeofObject, Gsheety.fetchJSON, destructureOpts]

set_option maxRecDepth 16384 in
/-- Counterexample to claim C8 as stated: null is not a configuration
object, yet `get` does not throw the invalid-options error on it — typeof
null is "object", so the guard passes and the destructuring step throws a
TypeError instead (still with no network request issued). -/
theorem claim_c8_counterexample :
    Gsheety.get noParse urlA .nullv respA = (.error .typeError, []) ∧
    JsError.typeError ≠ JsError.invalidOptions := by
  constructor
  · decide
  · decide

/-- Claim C7 (confirmed): `generateTableFromOutput` fails with the
invalid-data error exactly when the data argument is missing, cols or rows is
not a sequence, or the message differs from ok; on valid input it builds one
header cell per column label and one body row per data row, and invokes the
customization hooks on the header cells first and then on the body cells in
row-major order. -/
theorem claim_c7_generate (d : GenData) (o : GenOptions) :
    (Gsheety.generateTableFromOutput d o = .error .invalidData ↔ GenInvalid d) ∧
    (∀ (tbl : HTMLTableModel) (evs : List HookEvent),
      Gsheety.generateTableFromOutput d o = .ok (tbl, evs) →
      ∃ (cols : List GenCol) (rows : List (List JsVal)),
        d = .obj (some cols) (some rows) okMsg ∧
        tbl.headerCells = cols.map (fun c => labelText c.label) ∧
        tbl.bodyRows.length = rows.length ∧
        (∀ (j : Nat) (r : List JsVal), rows[j]? = some r →
          tbl.bodyRows[j]? = some (r.map textContentOfVal)) ∧
        evs = (if o.cbThead
            then (cols.map (fun c => labelText c.label)).map HookEvent.theadItem
            else []) ++
          (if o.cbTbody
            then (rows.map (fun r => r.map textContentOfVal)).flatMap
              (fun r => r.map HookEvent.tbodyItem)
            else [])) := by
  rcases d with _ | ⟨colsOpt, rowsOpt, msg⟩
  · constructor
    · simp [Gsheety.generateTableFromOutput, GenInvalid]
    · intro tbl evs h
      rw [Gsheety.generateTableFromOutput] at h
      cases h
  · rcases colsOpt with _ | cols
    · constructor
      · simp only [Gsheety.generateTableFromOutput, GenInvalid]
        constructor
        · intro _
          exact Or.inr ⟨none, rowsOpt, msg, rfl, Or.inl rfl⟩
        · intro _
          rcases rowsOpt with _ | rows <;> trivial
      · intro tbl evs h
        rcases rowsOpt with _ | rows <;>
          simp [Gsheety.generateTableFromOutput] at h
    · rcases rowsOpt with _ | rows
      · constructor
        · simp only [Gsheety.generateTableFromOutput, GenInvalid]
          constructor
          · intro _
            exact Or.inr ⟨some cols, none, msg, rfl, Or.inr (Or.inl rfl)⟩
          · intro _
            trivial
        · intro tbl evs h
          simp [Gsheety.generateTableFromOutput] at h
      · by_cases hm : msg = okMsg
        · subst hm
          constructor
          · constructor
            · intro h
              rw [Gsheety.generateTableFromOutput] at h
              simp at h
            · rintro (h | ⟨c2, r2, m2, heq, hbad⟩)
              · cases h
              · obtain ⟨hc, hr, hm2⟩ := GenData.obj.injEq _ _ _ _ _ _ ▸ heq
                subst hc; subst hr; subst hm2
                rcases hbad with hb | hb | hb
                · simp at hb
                · simp at hb
                · exact absurd rfl hb
          · intro tbl evs h
            rw [Gsheety.generateTableFromOutput] at h
            simp only [if_pos rfl] at h
            obtain ⟨htbl, hevs⟩ := Prod.mk.injEq _ _ _ _ ▸ (Except.ok.injEq _ _ ▸ h).symm
            refine ⟨cols, rows, rfl, ?_, ?_, ?_, ?_⟩
            · rw [htbl]
            · rw [htbl]
              simp
            · intro j r hr
              rw [htbl]
              simp only [List.getElem?_map, hr]
              rfl
            · rw [hevs]
        · constructor
          · simp only [Gsheety.generateTableFromOutput, GenInvalid]
            constructor
            · intro _
              exact Or.inr ⟨some cols, some rows, msg, rfl, Or.inr (Or.inr hm)⟩
            · intro _
              rw [if_neg hm]
          · intro tbl evs h
            simp [Gsheety.generateTableFromOutput, if_neg hm] at h

/-- Witness for C7 on a concrete valid data object with both hooks
installed. -/
theorem claim_c7_witness :
    ∃ (cols : List GenCol) (rows : List (List JsVal)),
      genDataB = .obj (some cols) (some rows) okMsg ∧
      tblB.headerCells = cols.map (fun c => labelText c.label) ∧
      tblB.bodyRows.length = rows.length ∧
      (∀ (j : Nat) (r : List JsVal), rows[j]? = some r →
        tblB.bodyRows[j]? = some (r.map textContentOfVal)) ∧
      evsB = (if genOptsB.cbThead
          then (cols.map (fun c => labelText c.label)).map HookEvent.theadItem
          else []) ++
        (if genOptsB.cbTbody
          then (rows.map (fun r => r.map textContentOfVal)).flatMap
            (fun r => r.map HookEvent.tbodyItem)
          else []) :=
  (claim_c7_generate genDataB genOptsB).2 tblB evsB (by decide)

/-- Claim C6 as amended: for every type value outside the four supported
formats that is not the name of an inherited `Object.prototype` member,
`getExportedData` throws the unsupported-format error before any network
request; for a supported format it issues exactly one GET against the
canonical URL's export path for that format, throws on a non-success status,
and resolves with binary content for pdf and xlsx and text otherwise.  (An
inherited member name such as "toString" is outside the supported set but
still truthy under the lookup, so the guard does not fire; see the
counterexample.) -/
theorem claim_c6_amended (url ty : List Char) (resp : Response) :
    (ty ∉ supportedFormats → ty ∉ objectProtoNames →
      Gsheety.getExportedData url ty resp = (.error .unsupportedFormat, [])) ∧
    (∀ canon, Gsheety.parseURL url = .ok canon → ty ∈ supportedFormats →
      (Gsheety.getExportedData url ty resp).2 =
        [canon ++ '/' :: (("export?format=").toList ++ ty)] ∧
      (resp.ok = false →
        (Gsheety.getExportedData url ty resp).1 =
          .error (.httpError resp.status resp.statusText)) ∧
      (resp.ok = true →
        (Gsheety.getExportedData url ty resp).1 =
          .ok (if ty = ("pdf").toList ∨ ty = ("xlsx").toList
            then ExportOut.blob resp.blobId else ExportOut.text resp.body))) := by
  constructor
  · intro hs hp
    have h1 : formatsLookup ty = none := by
      simp only [supportedFormats, List.mem_cons, List.not_mem_nil, or_false, not_or] at hs
      obtain ⟨n1, n2, n3, n4⟩ := hs
      rw [formatsLookup, if_neg n1, if_neg n2, if_neg n3, if_neg n4]
    have hfg : formatsGet ty = none := by
      rw [formatsGet, h1]
      rw [if_neg]
      simpa using hp
    rw [Gsheety.getExportedData, hfg]
  · intro canon hurl hmem
    simp only [supportedFormats, List.mem_cons, List.not_mem_nil, or_false] at hmem
    have main : ∀ path : List Char, formatsGet ty = some path →
        path = ("export?format=").toList ++ ty →
        (Gsheety.getExportedData url ty resp).2 =
          [canon ++ '/' :: (("export?format=").toList ++ ty)] ∧
        (resp.ok = false →
          (Gsheety.getExportedData url ty resp).1 =
            .error (.httpError resp.status resp.statusText)) ∧
        (resp.ok = true →
          (Gsheety.getExportedData url ty resp).1 =
            .ok (if ty = ("pdf").toList ∨ ty = ("xlsx").toList
              then ExportOut.blob resp.blobId else ExportOut.text resp.body)) := by
      intro path hfg hpath
      obtain ⟨ok, st, stx, body, blob⟩ := resp
      cases ok
      · rw [Gsheety.getExportedData, hfg, hurl, hpath]
        exact ⟨rfl, fun _ => rfl, fun h => by simp at h⟩
      · rw [Gsheety.getExportedData, hfg, hurl, hpath]
        refine ⟨?_, fun h => by simp at h, fun _ => ?_⟩
        · by_cases hc : ty = ['p', 'd', 'f'] ∨ ty = ['x', 'l', 's', 'x'] <;> simp [hc]
        · by_cases hc : ty = ['p', 'd', 'f'] ∨ ty = ['x', 'l', 's', 'x'] <;> simp [hc]
    rcases hmem with h | h | h | h <;> subst h
    · exact main (("export?format=csv").toList) (by decide) (by decide)
    · exact main (("export?format=tsv").toList) (by decide) (by decide)
    · exact main (("export?format=pdf").toList) (by decide) (by decide)
    · exact main (("export?format=xlsx").toList) (by decide) (by decide)

set_option maxRecDepth 16384 in
/-- Counterexample to claim C6 as stated: "toString" is outside the four
supported formats, yet `getExportedData` does not fail with the
unsupported-format error — the lookup finds the inherited
`Object.prototype.toString`, which is truthy — and a network request is
issued. -/
theorem claim_c6_counterexample :
    ("toString").toList ∉ supportedFormats ∧
    (Gsheety.getExportedData urlA (("toString").toList) respA).1 ≠
      .error .unsupportedFormat ∧
    (Gsheety.getExportedData urlA (("toString").toList) respA).2 ≠ [] := by
  exact ⟨by decide, by decide, by decide⟩

set_option maxRecDepth 16384 in
/-- Witness for the amended C6: a csv export over a failing response issues
exactly one request against the export path and throws the HTTP error. -/
theorem claim_c6_witness :
    (Gsheety.getExportedData urlA (("csv").toList) respBad).2 =
      [canonA ++ '/' :: (("export?format=").toList ++ ("csv").toList)] ∧
    (Gsheety.getExportedData urlA (("csv").toList) respBad).1 =
      .error (.httpError 404 (("Not Found").toList)) := by
  have h := (claim_c6_amended urlA (("csv").toList) respBad).2 canonA (by decide) (by decide)
  exact ⟨h.1, h.2.1 rfl⟩

/-- Claim C10 as amended: the three shipped implementations of `get` agree on
the guard path (non-object options), on every thrown fetch error, on the
data-null path, and on the raw path; their normalized success outputs differ
(the dist build omits msg and neither defaults labels nor pads rows; the src
build additionally removes null columns and null cells), see the
counterexample. -/
theorem claim_c10_amended (parse : List Char → Option ParsedJSON)
    (url : List Char) (ov : OptVal) (resp : Response) :
    (typeofObject (defaultOpt ov) = false →
      Gsheety.get parse url ov resp = GsheetyDist.get parse url ov resp ∧
      GsheetyDist.get parse url ov resp = GsheetySrc.get parse url ov resp) ∧
    (∀ e log, Gsheety.fetchJSON parse url (defaultOpt ov) resp = (.error e, log) →
      Gsheety.get parse url ov resp = GsheetyDist.get parse url ov resp ∧
      GsheetyDist.get parse url ov resp = GsheetySrc.get parse url ov resp) ∧
    (∀ fr log, Gsheety.fetchJSON parse url (defaultOpt ov) resp = (.ok fr, log) →
      (fr.data = none ∨ optRaw (defaultOpt ov) = true) →
      Gsheety.get parse url ov resp = GsheetyDist.get parse url ov resp ∧
      GsheetyDist.get parse url ov resp = GsheetySrc.get parse url ov resp) := by
  refine ⟨?_, ?_, ?_⟩
  · intro ht
    rw [Gsheety.get, GsheetyDist.get, GsheetySrc.get]
    simp [ht]
  · intro e log hf
    by_cases ht : typeofObject (defaultOpt ov) = false
    · rw [Gsheety.get, GsheetyDist.get, GsheetySrc.get]
      simp [ht]
    · rw [Bool.not_eq_false] at ht
      rw [Gsheety.get, GsheetyDist.get, GsheetySrc.get]
      simp [ht, hf]
  · intro fr log hf hcase
    by_cases ht : typeofObject (defaultOpt ov) = false
    · rw [Gsheety.get, GsheetyDist.get, GsheetySrc.get]
      simp [ht]
    · rw [Bool.not_eq_false] at ht
      rcases hdata : fr.data with _ | json
      · rw [Gsheety.get, GsheetyDist.get, GsheetySrc.get]
        simp [ht, hf, hdata]
      · rcases hcase with hd | hr
        · rw [hdata] at hd; cases hd
        · rw [Gsheety.get, GsheetyDist.get, GsheetySrc.get]
          simp [ht, hf, hdata, hr]

set_option maxRecDepth 16384 in
/-- Counterexample to claim C10 as stated: on a concrete successful non-raw
call the main implementation and the dist implementation return different
results (among other differences, one carries msg ok, the other no msg). -/
theorem claim_c10_counterexample :
    Gsheety.get parseA urlA (.obj none none false false) respA ≠
      GsheetyDist.get parseA urlA (.obj none none false false) respA := by
  decide

set_option maxRecDepth 16384 in
/-- Witness for the amended C10: on an HTTP failure the three implementations
return the same value. -/
theorem claim_c10_witness :
    Gsheety.get parseA urlA (.obj none none false false) respBad =
      GsheetyDist.get parseA urlA (.obj none none false false) respBad ∧
    GsheetyDist.get parseA urlA (.obj none none false false) respBad =
      GsheetySrc.get parseA urlA (.obj none none false false) respBad := by
  have h := (claim_c10_amended parseA urlA (.obj none none false false) respBad).2.2
  exact h ⟨none, httpErrorMsg 404 (("Not Found").toList)⟩
    [gvizURL canonA sheetDefault queryDefault] (by decide) (Or.inl rfl)
